import Mathlib

/-!
# Verification of the external-JS bridge (xk6-external-js)

Shallow embedding of the host-side dispatcher (`main.go`), the guest runner
(`js_runner.js`) and the guest convenience library (`helpers/index.js`),
together with proofs about the argument interpreter, runtime selector,
result extraction, metrics merge, checks merge and the guest-side
collector scoping.

JSON values (and goja-provided Go `interface{}` values) are modelled by the
inductive type `JVal`; numbers are modelled as exact rationals.  Go maps and
JSON objects are modelled as association lists (`alookup` returns the first
binding, matching the unique-key maps produced by JSON decoding and goja).
-/

set_option autoImplicit false
set_option maxRecDepth 8000

/-- JSON-ish values as they appear both as decoded Go `interface{}` data and
as JavaScript values (`undef` occurs only on the JavaScript side). -/
inductive JVal where
  | undef : JVal
  | null : JVal
  | bool : Bool → JVal
  | num : Rat → JVal
  | str : String → JVal
  | arr : List JVal → JVal
  | obj : List (String × JVal) → JVal
deriving Repr, Inhabited

/-- First-binding association-list lookup, modelling lookup in a Go map /
decoded JSON object (keys are unique there, so "first" is exact). -/
def alookup {α : Type} (l : List (String × α)) (k : String) : Option α :=
  match l with
  | [] => none
  | (k2, v) :: t => if k2 = k then some v else alookup t k

/-- Structured model of the error values `Run` can return before or after
running the child process (each carries the data the Go `fmt.Errorf`
message interpolates). -/
inductive GoErr where
  | unsupportedRuntime : String → List String → GoErr
  | invalidTimeout : String → GoErr
  | markersNotFound : GoErr
  | unmarshalFailed : GoErr
deriving Repr, DecidableEq

/-- Model of `RunOptions` from `main.go`: the canonical request derived from the two
arguments of `ext.run`.  `env` is the string-valued overlay. -/
structure RunOptions where
  runtime : String
  entry : String
  payload : JVal
  env : List (String × String)
  timeout : String
deriving Repr

/-- The string-valued entries of a decoded JSON object, as collected by the
`env` loop of `parseRunOptionsFromArgs`. -/
def envFromJVal (kvs : List (String × JVal)) : List (String × String) :=
  kvs.filterMap (fun kv =>
    match kv.2 with
    | JVal.str s => some (kv.1, s)
    | _ => none)

/-- Key-presence test of `parseRunOptionsFromArgs`
(`hasPayload || hasEnv || hasTimeout || hasRuntime`). -/
def hasAnyReservedKey (m : List (String × JVal)) : Bool :=
  (alookup m "payload").isSome || (alookup m "env").isSome ||
    (alookup m "timeout").isSome || (alookup m "runtime").isSome

/-- Model of `parseRunOptionsFromArgs` from `main.go` (lines 362-409): interprets the
second argument of `ext.run`.  A non-map argument is the payload; a map is an
options object exactly when it has one of the keys `payload`, `env`,
`timeout`, `runtime`; otherwise the whole map is the payload.  The Go code
fills the fields by a sequence of independent assignments, rendered here
field-wise; its `error` result is always `nil`, mirrored by the `Except`. -/
def parseRunOptionsFromArgs (entry : String) (arg : JVal) : Except GoErr RunOptions :=
  match arg with
  | JVal.obj m =>
      if hasAnyReservedKey m then
        Except.ok
          { runtime :=
              match alookup m "runtime" with
              | some (JVal.str v) => v
              | _ => ""
            entry :=
              match alookup m "entry" with
              | some (JVal.str v) => if v = "" then entry else v
              | _ => entry
            payload :=
              match alookup m "payload" with
              | some v => v
              | none => JVal.obj m
            env :=
              match alookup m "env" with
              | some (JVal.obj e) => envFromJVal e
              | _ => []
            timeout :=
              match alookup m "timeout" with
              | some (JVal.str v) => v
              | _ => "" }
      else Except.ok ⟨"", entry, JVal.obj m, [], ""⟩
  | _ => Except.ok ⟨"", entry, arg, [], ""⟩

/-- Suffix test on character lists (the anchored `$` part of the runtime
detection regex). -/
def endsWithL (s suf : List Char) : Bool :=
  suf.reverse.isPrefixOf s.reverse

/-- Model of `strings.ToLower` as used on filenames (character-wise lowering). -/
def lowerString (s : String) : String :=
  String.mk (s.data.map Char.toLower)

/-- The twelve tag/suffix pairs matched by the anchored regex
`\.(node|deno|bun)\.(js|ts|mjs|cjs)$` of `detectRuntimeFromFilename`. -/
def runtimeSuffixTable : List (String × String) :=
  [("node", ".node.js"), ("node", ".node.ts"), ("node", ".node.mjs"), ("node", ".node.cjs"),
   ("deno", ".deno.js"), ("deno", ".deno.ts"), ("deno", ".deno.mjs"), ("deno", ".deno.cjs"),
   ("bun", ".bun.js"), ("bun", ".bun.ts"), ("bun", ".bun.mjs"), ("bun", ".bun.cjs")]

/-- Model of `detectRuntimeFromFilename` from `main.go` (lines 430-444): lowercase the
filename and match the runtime tag immediately preceding a known extension at
the end of the name; empty string when nothing matches.  (No two distinct
table suffixes can end the same string, so the table order is irrelevant,
matching the regex's unique anchored match.) -/
def detectRuntimeFromFilename (filename : String) : String :=
  if filename = "" then ""
  else
    match runtimeSuffixTable.find? (fun p => endsWithL (lowerString filename).data p.2.data) with
    | some p => p.1
    | none => ""

/-- Runtime resolution from `Run` (`main.go` lines 125-140): explicit option
wins, otherwise filename detection, otherwise the default `node`; the result
is then validated against the supported set. -/
def resolveRuntime (rt fname : String) : Except GoErr String :=
  let rt1 := if rt = "" then detectRuntimeFromFilename fname else rt
  let rt2 := if rt1 = "" then "node" else rt1
  if rt2 = "node" ∨ rt2 = "deno" ∨ rt2 = "bun" then Except.ok rt2
  else Except.error (GoErr.unsupportedRuntime rt2 ["node", "deno", "bun"])

/-- The payload of the canonical request produced by the argument
interpreter (`none` would mean an error, which never happens). -/
def parsedPayload (entry : String) (arg : JVal) : Option JVal :=
  match parseRunOptionsFromArgs entry arg with
  | Except.ok o => some o.payload
  | Except.error _ => none

/-- Accumulate a run of decimal digits: value, digit count, rest. -/
def takeDigitsAux (acc cnt : Nat) : List Char → Nat × Nat × List Char
  | [] => (acc, cnt, [])
  | c :: t =>
      if c.isDigit then takeDigitsAux (acc * 10 + (c.toNat - 48)) (cnt + 1) t
      else (acc, cnt, c :: t)

/-- Consume the unit of a duration component: the run of characters that are
neither digits nor a dot (as in Go's `time.ParseDuration`). -/
def takeUnit : List Char → List Char × List Char
  | [] => ([], [])
  | c :: t =>
      if c.isDigit || c = '.' then ([], c :: t)
      else
        let (u, r) := takeUnit t
        (c :: u, r)

/-- The unit table of Go's `time.ParseDuration`, in nanoseconds. -/
def durationUnitTable : List (String × Nat) :=
  [("ns", 1), ("us", 1000), ("µs", 1000), ("μs", 1000), ("ms", 1000000),
   ("s", 1000000000), ("m", 60000000000), ("h", 3600000000000)]

/-- The component loop of Go's `time.ParseDuration`: repeat
`digits [. digits] unit` until the string is exhausted.  Fuelled; each
iteration consumes at least one character, so `length + 1` fuel is enough. -/
def parseDurationLoop : Nat → List Char → Option Rat
  | 0, _ => none
  | _, [] => some 0
  | fuel + 1, s =>
      let (v, npre, s1) := takeDigitsAux 0 0 s
      match s1 with
      | '.' :: t =>
          let (f, npost, s2) := takeDigitsAux 0 0 t
          if npre = 0 ∧ npost = 0 then none
          else
            let (u, s3) := takeUnit s2
            if u.isEmpty then none
            else
              match alookup durationUnitTable (String.mk u) with
              | none => none
              | some mult =>
                  match parseDurationLoop fuel s3 with
                  | none => none
                  | some rest =>
                      some ((v : Rat) * mult + (f : Rat) * mult / ((10 : Rat) ^ npost) + rest)
      | _ =>
          if npre = 0 then none
          else
            let (u, s3) := takeUnit s1
            if u.isEmpty then none
            else
              match alookup durationUnitTable (String.mk u) with
              | none => none
              | some mult =>
                  match parseDurationLoop fuel s3 with
                  | none => none
                  | some rest => some ((v : Rat) * mult + rest)

/-- Go's `time.ParseDuration` (syntax and nanosecond value; overflow is not
modelled): optional sign, the literal `"0"`, or a nonempty sequence of
number/unit components.  `none` models the `invalid duration` error. -/
def goParseDuration (s : String) : Option Rat :=
  let l := s.data
  let signed :=
    match l with
    | c :: t => if c = '-' ∨ c = '+' then (c == '-', t) else (false, l)
    | [] => (false, ([] : List Char))
  let neg := signed.1
  let l1 := signed.2
  if l1 = ['0'] then some 0
  else if l1.isEmpty then none
  else
    match parseDurationLoop (l1.length + 1) l1 with
    | none => none
    | some d => some (if neg then -d else d)

/-- Rendering of numbers used by the JSON printer model.  Integral values
(the only ones the claims exercise) are rendered exactly like JavaScript and
Go; non-integral rationals are rendered as a fraction, standing in for the
floating-point formatting that is out of scope here. -/
def ratToJsonString (q : Rat) : String :=
  if q.den = 1 then toString q.num else toString q.num ++ "/" ++ toString q.den

/-- Escape one character for a JSON string literal. -/
def escapeJsonChar (c : Char) : String :=
  if c = Char.ofNat 34 then "\\\""
  else if c = Char.ofNat 92 then "\\\\"
  else if c = Char.ofNat 10 then "\\n"
  else if c = Char.ofNat 9 then "\\t"
  else if c = Char.ofNat 13 then "\\r"
  else String.mk [c]

/-- Quote a string as a JSON string literal. -/
def quoteJson (s : String) : String :=
  "\"" ++ String.join (s.data.map escapeJsonChar) ++ "\""

mutual

/-- Rendering model of `JSON.stringify` / `json.Marshal` on the modelled values.  (`undef` is
rendered as `null`; no claim exercises `undefined` inside a structure.) -/
def jsonStringify : JVal → String
  | JVal.undef => "null"
  | JVal.null => "null"
  | JVal.bool b => if b then "true" else "false"
  | JVal.num q => ratToJsonString q
  | JVal.str s => quoteJson s
  | JVal.arr l => "[" ++ jsonStringifyArr l ++ "]"
  | JVal.obj l => "\x7b" ++ jsonStringifyObj l ++ "\x7d"

/-- Comma-separated rendering of array elements. -/
def jsonStringifyArr : List JVal → String
  | [] => ""
  | [x] => jsonStringify x
  | x :: y :: t => jsonStringify x ++ "," ++ jsonStringifyArr (y :: t)

/-- Comma-separated rendering of object members. -/
def jsonStringifyObj : List (String × JVal) → String
  | [] => ""
  | [(k, v)] => quoteJson k ++ ":" ++ jsonStringify v
  | (k, v) :: m :: t => quoteJson k ++ ":" ++ jsonStringify v ++ "," ++ jsonStringifyObj (m :: t)

end

/-- JSON insignificant whitespace. -/
def jsonWs (c : Char) : Bool :=
  c = ' ' || c = Char.ofNat 9 || c = Char.ofNat 10 || c = Char.ofNat 13

/-- Skip insignificant whitespace. -/
def skipWs (l : List Char) : List Char :=
  l.dropWhile jsonWs

/-- Consume an expected literal tail (`rue`, `alse`, `ull`). -/
def parseLit (lit l : List Char) : Option (List Char) :=
  if lit.isPrefixOf l then some (l.drop lit.length) else none

/-- Value of one hexadecimal digit. -/
def hexVal (c : Char) : Option Nat :=
  if c.isDigit then some (c.toNat - 48)
  else if 'a' ≤ c ∧ c ≤ 'f' then some (c.toNat - 87)
  else if 'A' ≤ c ∧ c ≤ 'F' then some (c.toNat - 70)
  else none

/-- Insert-or-replace a key in an association list: the decoding of JSON
object members into a Go map (a repeated key keeps the last value). -/
def upsert (l : List (String × JVal)) (k : String) (v : JVal) : List (String × JVal) :=
  match l with
  | [] => [(k, v)]
  | (k2, v2) :: t => if k2 = k then (k2, v) :: t else (k2, v2) :: upsert t k v

/-- Fold parsed members into a unique-key map, later bindings winning. -/
def dedupKeys (l : List (String × JVal)) : List (String × JVal) :=
  l.foldl (fun acc kv => upsert acc kv.1 kv.2) []

/-- JSON string body after the opening quote: plain characters and the
standard escapes, until the closing quote. -/
def pString (fuel : Nat) (l acc : List Char) : Option (String × List Char) :=
  match fuel with
  | 0 => none
  | fuel + 1 =>
      match l with
      | [] => none
      | c :: t =>
          if c = Char.ofNat 34 then some (String.mk acc, t)
          else if c = Char.ofNat 92 then
            match t with
            | [] => none
            | e :: t2 =>
                if e = Char.ofNat 34 then pString fuel t2 (acc ++ [Char.ofNat 34])
                else if e = Char.ofNat 92 then pString fuel t2 (acc ++ [Char.ofNat 92])
                else if e = '/' then pString fuel t2 (acc ++ ['/'])
                else if e = 'n' then pString fuel t2 (acc ++ [Char.ofNat 10])
                else if e = 't' then pString fuel t2 (acc ++ [Char.ofNat 9])
                else if e = 'r' then pString fuel t2 (acc ++ [Char.ofNat 13])
                else if e = 'b' then pString fuel t2 (acc ++ [Char.ofNat 8])
                else if e = 'f' then pString fuel t2 (acc ++ [Char.ofNat 12])
                else if e = 'u' then
                  match t2 with
                  | h1 :: h2 :: h3 :: h4 :: t3 =>
                      match hexVal h1, hexVal h2, hexVal h3, hexVal h4 with
                      | some a, some b, some c2, some d =>
                          pString fuel t3 (acc ++ [Char.ofNat (a * 4096 + b * 256 + c2 * 16 + d)])
                      | _, _, _, _ => none
                  | _ => none
                else none
          else if c.toNat < 32 then none
          else pString fuel t (acc ++ [c])

/-- Magnitude beyond which `strconv.ParseFloat` (and hence `json.Unmarshal`
into `interface\x7b\x7d`) overflows float64 and errors: more than half an ulp
above the largest finite float64, i.e. `2^1024 - 2^970`. -/
def float64OverflowBound : Rat :=
  ((2 : Rat) ^ (1024 : Nat)) - ((2 : Rat) ^ (970 : Nat))

/-- JSON number (strict grammar `-?(0|[1-9][0-9]*)(\.[0-9]+)?([eE][+-]?[0-9]+)?`);
magnitudes overflowing float64 are rejected, as `encoding/json` rejects them
(underflow, by contrast, silently decodes to zero, as in Go). -/
def pNumber (l : List Char) : Option (JVal × List Char) :=
  let signed :=
    match l with
    | c :: t => if c = '-' then (true, t) else (false, l)
    | [] => (false, ([] : List Char))
  let negi := signed.1
  match signed.2 with
  | [] => none
  | c :: t =>
      if ¬ c.isDigit then none
      else
        let ipart :=
          if c = '0' then
            match t with
            | d :: _ => if d.isDigit then none else some ((0 : Nat), t)
            | [] => some ((0 : Nat), t)
          else
            let (v, _, r) := takeDigitsAux (c.toNat - 48) 1 t
            some (v, r)
        match ipart with
        | none => none
        | some (ip, l2) =>
            let fpart :=
              match l2 with
              | '.' :: t2 =>
                  let (fv, nf, r) := takeDigitsAux 0 0 t2
                  if nf = 0 then none else some (fv, nf, r)
              | _ => some ((0 : Nat), (0 : Nat), l2)
            match fpart with
            | none => none
            | some (fv, nf, l3) =>
                let epart :=
                  match l3 with
                  | e :: t3 =>
                      if e = 'e' ∨ e = 'E' then
                        let esigned :=
                          match t3 with
                          | s :: t4 =>
                              if s = '-' then (true, t4)
                              else if s = '+' then (false, t4) else (false, t3)
                          | [] => (false, ([] : List Char))
                        let (ev, ne, r) := takeDigitsAux 0 0 esigned.2
                        if ne = 0 then none else some ((if esigned.1 then -(ev : Int) else ev), r)
                      else some ((0 : Int), l3)
                  | [] => some ((0 : Int), l3)
                match epart with
                | none => none
                | some (ex, l4) =>
                    let mag : Rat := ((ip : Rat) + (fv : Rat) / ((10 : Rat) ^ nf)) * (10 : Rat) ^ ex
                    if mag > float64OverflowBound then none
                    else some (JVal.num (if negi then -mag else mag), l4)

mutual

/-- One JSON value (fuelled recursive-descent model of `json.Unmarshal`'s
grammar; `2 * length + 8` fuel always suffices). -/
def pValue (fuel : Nat) (l : List Char) : Option (JVal × List Char) :=
  match fuel with
  | 0 => none
  | fuel + 1 =>
      match skipWs l with
      | [] => none
      | c :: t =>
          if c = Char.ofNat 123 then
            match skipWs t with
            | c2 :: t2 =>
                if c2 = Char.ofNat 125 then some (JVal.obj [], t2)
                else
                  match pMembersRest fuel (skipWs t) [] with
                  | some (kvs, r) => some (JVal.obj (dedupKeys kvs), r)
                  | none => none
            | [] => none
          else if c = '[' then
            match skipWs t with
            | ']' :: t2 => some (JVal.arr [], t2)
            | _ =>
                match pElemsRest fuel (skipWs t) [] with
                | some (elems, r) => some (JVal.arr elems, r)
                | none => none
          else if c = Char.ofNat 34 then
            match pString fuel t [] with
            | some (s, r) => some (JVal.str s, r)
            | none => none
          else if c = 't' then (parseLit "rue".data t).map (fun r => (JVal.bool true, r))
          else if c = 'f' then (parseLit "alse".data t).map (fun r => (JVal.bool false, r))
          else if c = 'n' then (parseLit "ull".data t).map (fun r => (JVal.null, r))
          else pNumber (c :: t)

/-- Remaining members of a JSON object (a member is expected next). -/
def pMembersRest (fuel : Nat) (l : List Char) (acc : List (String × JVal)) :
    Option (List (String × JVal) × List Char) :=
  match fuel with
  | 0 => none
  | fuel + 1 =>
      match skipWs l with
      | [] => none
      | c :: t =>
          if c = Char.ofNat 34 then
            match pString fuel t [] with
            | some (k, r1) =>
                match skipWs r1 with
                | ':' :: r2 =>
                    match pValue fuel r2 with
                    | some (v, r3) =>
                        match skipWs r3 with
                        | ',' :: r4 => pMembersRest fuel r4 (acc ++ [(k, v)])
                        | c2 :: r4 =>
                            if c2 = Char.ofNat 125 then some (acc ++ [(k, v)], r4) else none
                        | [] => none
                    | none => none
                | _ => none
            | none => none
          else none

/-- Remaining elements of a JSON array (an element is expected next). -/
def pElemsRest (fuel : Nat) (l : List Char) (acc : List JVal) :
    Option (List JVal × List Char) :=
  match fuel with
  | 0 => none
  | fuel + 1 =>
      match pValue fuel l with
      | some (v, r1) =>
          match skipWs r1 with
          | ',' :: r2 => pElemsRest fuel r2 (acc ++ [v])
          | ']' :: r2 => some (acc ++ [v], r2)
          | _ => none
      | none => none

end

/-- Model of `json.Unmarshal(data, &map[string]interface{})`: the whole input
must be one JSON object or the JSON literal `null` (plus insignificant
whitespace).  An object decodes into a unique-key map; `null` succeeds with
no error, setting the map to `nil` — modelled as the empty map, which is
indistinguishable from a nil map for the lookups, deletes and return that
follow in `Run`.  Anything else is an error. -/
def goUnmarshalMap (l : List Char) : Option (List (String × JVal)) :=
  match pValue (2 * l.length + 8) l with
  | some (JVal.obj m, rest) => if skipWs rest = [] then some m else none
  | some (JVal.null, rest) => if skipWs rest = [] then some [] else none
  | _ => none

/-- The start marker of the wire protocol. -/
def startMarkerL : List Char :=
  "__RESULT_START__".data

/-- The end marker of the wire protocol. -/
def endMarkerL : List Char :=
  "__RESULT_END__".data

/-- Index of the first occurrence of `pat` in a list (the regex engine's
leftmost match). -/
def findSub (pat : List Char) : List Char → Option Nat
  | [] => if pat.isPrefixOf ([] : List Char) then some 0 else none
  | c :: t =>
      if pat.isPrefixOf (c :: t) then some 0
      else (findSub pat t).map (fun n => n + 1)

/-- Whitespace trimmed by `strings.TrimSpace` (ASCII part). -/
def goWs (c : Char) : Bool :=
  c = ' ' || c = Char.ofNat 9 || c = Char.ofNat 10 || c = Char.ofNat 11 ||
    c = Char.ofNat 12 || c = Char.ofNat 13

/-- `strings.TrimSpace` (also absorbing the `\s*` ends of the extraction
regex, which trim the same characters). -/
def goTrimSpace (l : List Char) : List Char :=
  ((l.dropWhile goWs).reverse.dropWhile goWs).reverse

/-- The text bracketed by the first start marker and the next end marker, as
matched by `__RESULT_START__\s*([\s\S]*?)\s*__RESULT_END__` (the surrounding
`\s*` is re-absorbed by `goTrimSpace` below, exactly as the Go code applies
`strings.TrimSpace` to the captured group). -/
def extractBetween (out : List Char) : Option (List Char) :=
  match findSub startMarkerL out with
  | none => none
  | some i =>
      let rest := (out.drop i).drop startMarkerL.length
      match findSub endMarkerL rest with
      | none => none
      | some j => some (rest.take j)

/-- Model of `extractResult` from `main.go` (lines 447-464): locate the delimited
text, trim it, and unmarshal it as a JSON object. -/
def extractResultL (out : List Char) : Except GoErr (List (String × JVal)) :=
  match extractBetween out with
  | none => Except.error GoErr.markersNotFound
  | some mid =>
      match goUnmarshalMap (goTrimSpace mid) with
      | none => Except.error GoErr.unmarshalFailed
      | some m => Except.ok m

/-- String-level wrapper for `extractResultL`. -/
def extractResult (out : String) : Except GoErr (List (String × JVal)) :=
  extractResultL out.data

/-- k6 metric kinds. -/
inductive MKind where
  | counter : MKind
  | gauge : MKind
  | trend : MKind
  | rate : MKind
deriving Repr, DecidableEq

/-- The kind mapping (`switch metricType`) of `Run`: unknown kind strings default to
`counter`. -/
def kindOfTypeString (t : String) : MKind :=
  if t = "counter" then MKind.counter
  else if t = "gauge" then MKind.gauge
  else if t = "trend" then MKind.trend
  else if t = "rate" then MKind.rate
  else MKind.counter

/-- One sample pushed to the k6 sample channel; `metricName`/`metricKind`
identify the registry metric instance the sample is bound to. -/
structure MSample where
  metricName : String
  metricKind : MKind
  value : Rat
  tags : List (String × String)
deriving Repr, DecidableEq

/-- Module-instance state: the `customMetrics` cache of `ExternalJS`, plus
the trace of `MustNewMetric` registrations performed (to state that no name
is ever registered twice). -/
structure MState where
  customMetrics : List (String × MKind)
  registrations : List (String × MKind)
deriving Repr, DecidableEq

/-- Model of `extractMetricValue` on decoded JSON data: numbers pass through, any
other (or absent/null) value coerces to 0. -/
def extractMetricValue (v : Option JVal) : Rat :=
  match v with
  | some (JVal.num q) => q
  | _ => 0

/-- String field accessor with the Go type-assertion default. -/
def jstrOr (v : Option JVal) : String :=
  match v with
  | some (JVal.str s) => s
  | _ => ""

/-- Bool field accessor with the Go type-assertion default. -/
def jboolOr (v : Option JVal) : Bool :=
  match v with
  | some (JVal.bool b) => b
  | _ => false

/-- Whether the decoded `value` field is Go `nil` (absent key or JSON null). -/
def isNilJ (vf : Option JVal) : Bool :=
  match vf with
  | none => true
  | some JVal.null => true
  | _ => false

/-- Whether the decoded `value` field is the float `0.0`. -/
def isZeroFloatJ (vf : Option JVal) : Bool :=
  match vf with
  | some (JVal.num q) => q == 0
  | _ => false

/-- The skip (`continue`) guard of the metrics loop:
`metricValue == 0 && metricData["value"] != nil && metricData["value"] != 0.0`. -/
def metricSkip (vf : Option JVal) (mv : Rat) : Bool :=
  mv == 0 && !(isNilJ vf) && !(isZeroFloatJ vf)

/-- The string-valued entries of a decoded `tags` object. -/
def tagsFromJVal (v : Option JVal) : List (String × String) :=
  match v with
  | some (JVal.obj kvs) => envFromJVal kvs
  | _ => []

/-- One iteration of the telemetry-merge loop of `Run` (lines 249-300):
non-object entries are skipped; the value is coerced; coercion failures are
dropped; the metric is looked up or lazily registered (first registration
fixing the kind); one sample is pushed. -/
def processMetricEntry (acc : MState × List MSample) (j : JVal) : MState × List MSample :=
  match j with
  | JVal.obj kvs =>
      let st := acc.1
      let name := jstrOr (alookup kvs "name")
      let typ := jstrOr (alookup kvs "type")
      let vf := alookup kvs "value"
      let mv := extractMetricValue vf
      if metricSkip vf mv then acc
      else
        let tags := tagsFromJVal (alookup kvs "tags")
        match alookup st.customMetrics name with
        | some k => (st, acc.2 ++ [⟨name, k, mv, tags⟩])
        | none =>
            let k := kindOfTypeString typ
            (⟨st.customMetrics ++ [(name, k)], st.registrations ++ [(name, k)]⟩,
              acc.2 ++ [⟨name, k, mv, tags⟩])
  | _ => acc

/-- The telemetry-merge loop over a decoded `__k6_metrics__` array. -/
def processMetricsList (st : MState) (l : List JVal) : MState × List MSample :=
  l.foldl processMetricEntry (st, [])

/-- One iteration of the checks loop of `Run` (lines 315-346): non-object
entries and empty names are skipped; the sample value is 1.0 for a passed
check and 0.0 otherwise, tagged with the check name. -/
def processCheckEntry (checkKind : MKind) (acc : List MSample) (j : JVal) : List MSample :=
  match j with
  | JVal.obj kvs =>
      let name := jstrOr (alookup kvs "name")
      let ok := jboolOr (alookup kvs "ok")
      if name = "" then acc
      else acc ++ [⟨"checks", checkKind, if ok then 1 else 0, [("check", name)]⟩]
  | _ => acc

/-- The checks block of `Run` (lines 307-350): look up or register the shared
`checks` metric (registered as a rate metric when fresh), then push one
sample per named check entry. -/
def processChecksList (st : MState) (l : List JVal) : MState × List MSample :=
  match alookup st.customMetrics "checks" with
  | some k => (st, l.foldl (processCheckEntry k) [])
  | none =>
      (⟨st.customMetrics ++ [("checks", MKind.rate)],
          st.registrations ++ [("checks", MKind.rate)]⟩,
        l.foldl (processCheckEntry MKind.rate) [])

/-- Go `delete(result, k)` on the unique-key decoded map. -/
def eraseKey (m : List (String × JVal)) (k : String) : List (String × JVal) :=
  m.filter (fun kv => kv.1 != k)

/-- The reserved `__k6_metrics__` block of `Run` (lines 247-304): when the key decoded
as an array, merge its entries and delete the key; otherwise leave the result
untouched. -/
def metricsBlock (st : MState) (result : List (String × JVal)) :
    MState × List MSample × List (String × JVal) :=
  match alookup result "__k6_metrics__" with
  | some (JVal.arr l) =>
      let p := processMetricsList st l
      (p.1, p.2, eraseKey result "__k6_metrics__")
  | _ => (st, [], result)

/-- The reserved `__k6_checks__` block of `Run` (lines 307-350): when the key decoded
as an array, push its check samples and delete the key; otherwise leave the
result untouched. -/
def checksBlock (st : MState) (result : List (String × JVal)) :
    MState × List MSample × List (String × JVal) :=
  match alookup result "__k6_checks__" with
  | some (JVal.arr l) =>
      let p := processChecksList st l
      (p.1, p.2, eraseKey result "__k6_checks__")
  | _ => (st, [], result)

/-- The post-extraction tail of `Run` (lines 247-352): the metrics block,
then the checks block on its output, returning the final state, all pushed
samples in order, and the user-visible result. -/
def mergeResult (st : MState) (result : List (String × JVal)) :
    MState × List MSample × List (String × JVal) :=
  let s1 := metricsBlock st result
  let s2 := checksBlock s1.1 s1.2.2
  (s2.1, s1.2.1 ++ s2.2.1, s2.2.2)

/-- The request data assembled by `Run` before the child command is built. -/
structure Prepared where
  runtime : String
  entry : String
  payload : JVal
  timeoutNs : Option Rat
deriving Repr

/-- The pre-spawn prefix of `Run` (lines 119-164): interpret the arguments,
resolve and validate the runtime, default the entry, and parse the timeout.
(Marshalling the payload is total on the modelled values.)  An error here
means no command is ever constructed. -/
def runPrepare (flowPath : String) (arg : JVal) : Except GoErr Prepared :=
  match parseRunOptionsFromArgs flowPath arg with
  | Except.error e => Except.error e
  | Except.ok opts =>
      let fname := if opts.entry = "" then flowPath else opts.entry
      match resolveRuntime opts.runtime fname with
      | Except.error e => Except.error e
      | Except.ok rt =>
          if opts.timeout = "" then Except.ok ⟨rt, fname, opts.payload, none⟩
          else
            match goParseDuration opts.timeout with
            | none => Except.error (GoErr.invalidTimeout opts.timeout)
            | some d => Except.ok ⟨rt, fname, opts.payload, some d⟩

/-- Model of `Run` as observed through a given child output: the `Bool` records
whether control reached the spawn point (command construction/execution).
The iteration bookkeeping metrics and the timeout/non-zero-exit outcomes are
outside this model, which covers the successful-exit path after spawn. -/
def runModel (flowPath : String) (arg : JVal) (childOutput : String) (st : MState) :
    Except GoErr (MState × List MSample × List (String × JVal)) × Bool :=
  match runPrepare flowPath arg with
  | Except.error e => (Except.error e, false)
  | Except.ok _ =>
      match extractResult childOutput with
      | Except.error e => (Except.error e, true)
      | Except.ok result =>
          let m := mergeResult st result
          (Except.ok m, true)

/-- JavaScript truthiness on the modelled values (`NaN`, `-0` and BigInt are
not representable here and are not exercised by any claim). -/
def jsTruthy (v : JVal) : Bool :=
  match v with
  | JVal.undef => false
  | JVal.null => false
  | JVal.bool b => b
  | JVal.num q => q != 0
  | JVal.str s => s ≠ ""
  | JVal.arr _ => true
  | JVal.obj _ => true

/-- One telemetry entry as buffered by the helpers' `MetricsCollector`
(`{type, name, value, tags}`). -/
structure TelEntry where
  type : String
  name : String
  value : Rat
  tags : List (String × String)
deriving Repr, DecidableEq

/-- One check entry as buffered by the helpers' `ChecksCollector`
(`{name, ok}`). -/
structure ChkEntry where
  name : String
  ok : Bool
deriving Repr, DecidableEq

/-- Model of `MetricsCollector._recordRate` from `helpers/index.js`: push
`{type: "rate", name, value, tags}`. -/
def recordRate (c : List TelEntry) (name : String) (value : Rat)
    (tags : List (String × String)) : List TelEntry :=
  c ++ [⟨"rate", name, value, tags⟩]

/-- Model of `Rate.add(value, tags)` from `helpers/index.js` (lines 34-43): records
`value ? 1 : 0`, never the numeric value itself. -/
def rateAdd (c : List TelEntry) (name : String) (value : JVal)
    (tags : List (String × String)) : List TelEntry :=
  recordRate c name (if jsTruthy value then 1 else 0) tags

/-- The collector operations user code can reach through the ambient
module-level API inside `run()`: a metric-handle mutation (already converted
to the entry it records) or a check registration. -/
inductive GuestOp where
  | tel : TelEntry → GuestOp
  | chk : String → JVal → GuestOp
deriving Repr

/-- The module-level mutable slots `currentMetrics` / `currentChecks` of
`helpers/index.js` (the installed collectors' buffers; `none` = no collector
installed). -/
structure JsAmbient where
  currentMetrics : Option (List TelEntry)
  currentChecks : Option (List ChkEntry)
deriving Repr, DecidableEq

/-- One ambient API call: writes to the currently installed collector, or
throws (`"... can only be used inside run()"`) when none is installed. -/
def interpOp (a : JsAmbient) (op : GuestOp) : Except String JsAmbient :=
  match op with
  | GuestOp.tel e =>
      match a.currentMetrics with
      | none => Except.error "metrics can only be used inside run()"
      | some buf => Except.ok ⟨some (buf ++ [e]), a.currentChecks⟩
  | GuestOp.chk n c =>
      match a.currentChecks with
      | none => Except.error "checks can only be used inside run()"
      | some buf => Except.ok ⟨a.currentMetrics, some (buf ++ [⟨n, jsTruthy c⟩])⟩

/-- A user function's sequence of ambient API calls. -/
def interpOps (a : JsAmbient) : List GuestOp → Except String JsAmbient
  | [] => Except.ok a
  | op :: t =>
      match interpOp a op with
      | Except.error e => Except.error e
      | Except.ok a2 => interpOps a2 t

/-- The telemetry entries a list of operations records. -/
def telOf (ops : List GuestOp) : List TelEntry :=
  ops.filterMap (fun op =>
    match op with
    | GuestOp.tel e => some e
    | _ => none)

/-- The check entries a list of operations records (condition coerced with
`Boolean(...)`). -/
def chkOf (ops : List GuestOp) : List ChkEntry :=
  ops.filterMap (fun op =>
    match op with
    | GuestOp.chk n c => some ⟨n, jsTruthy c⟩
    | _ => none)

/-- How the user flow function terminates: a returned value or a thrown
exception. -/
inductive Outcome where
  | ret : JVal → Outcome
  | thr : String → Outcome
deriving Repr

/-- The object returned by the wrapper produced by `run(fn)`: the user result
(replaced by `\x7b\x7d` when not an object), with the nonempty buffers
attached under the reserved keys. -/
structure SafeRes where
  base : JVal
  metricsKey : Option (List TelEntry)
  checksKey : Option (List ChkEntry)
deriving Repr

/-- Model of `run(fn)` from `helpers/index.js` (lines 134-171), as a state transformer
on the ambient collector slots.  The user function is represented by the
ambient API calls it makes plus its outcome.  Fresh collectors are installed,
the previous ones saved; the `finally` block restores them on both the return
and the throw path; nonempty buffers are attached to the result under the
reserved keys. -/
def runWrapper (ops : List GuestOp) (oc : Outcome) (a : JsAmbient) :
    JsAmbient × Except String SafeRes :=
  let prev := a
  let installed : JsAmbient := ⟨some [], some []⟩
  match interpOps installed ops with
  | Except.error e => (prev, Except.error e)
  | Except.ok a2 =>
      match oc with
      | Outcome.thr m => (prev, Except.error m)
      | Outcome.ret v =>
          let base :=
            match v with
            | JVal.obj kvs => JVal.obj kvs
            | JVal.arr l => JVal.arr l
            | _ => JVal.obj []
          let metricsData := a2.currentMetrics.getD []
          let checksData := a2.currentChecks.getD []
          (prev, Except.ok
            ⟨base,
              if metricsData.isEmpty then none else some metricsData,
              if checksData.isEmpty then none else some checksData⟩)

/-- The EMIT_RESULT step of `js_runner.js` (lines 119-130):
`console.log` of the start marker, of `JSON.stringify(result || \x7b\x7d)`,
and of the end marker, then exit code 0.  The result lines and the exit code
are returned. -/
def jsRunnerEmit (result : JVal) : List String × Nat :=
  (["__RESULT_START__",
    jsonStringify (if jsTruthy result then result else JVal.obj []),
    "__RESULT_END__"], 0)

/-- Join output lines the way the host's combined-output capture sees them. -/
def joinLines (lines : List String) : String :=
  String.intercalate "\n" lines

/-- Occurrence of `pat` in `s` at index `i`. -/
def occursAt (pat s : List Char) (i : Nat) : Prop :=
  pat.isPrefixOf (s.drop i) = true

instance occursAtDecidable (pat s : List Char) (i : Nat) : Decidable (occursAt pat s i) :=
  inferInstanceAs (Decidable (_ = true))

/-- A telemetry entry shaped per the wire contract as far as the merge loop's
skip guard is concerned: a JSON object whose `value` decoded as a number
(such an entry is never dropped by the coercion guard). -/
def wfMetricEntry (j : JVal) : Bool :=
  match j with
  | JVal.obj kvs =>
      match alookup kvs "value" with
      | some (JVal.num _) => true
      | _ => false
  | _ => false

/-- The name the merge loop extracts from a telemetry entry. -/
def entryName (j : JVal) : String :=
  match j with
  | JVal.obj kvs => jstrOr (alookup kvs "name")
  | _ => ""

/-- The metric kind the merge loop would register for a telemetry entry. -/
def entryKind (j : JVal) : MKind :=
  match j with
  | JVal.obj kvs => kindOfTypeString (jstrOr (alookup kvs "type"))
  | _ => MKind.counter

/-- The coerced sample value of a telemetry entry. -/
def entryValue (j : JVal) : Rat :=
  match j with
  | JVal.obj kvs => extractMetricValue (alookup kvs "value")
  | _ => 0

/-- The tags the merge loop extracts from a telemetry entry. -/
def entryTags (j : JVal) : List (String × String) :=
  match j with
  | JVal.obj kvs => tagsFromJVal (alookup kvs "tags")
  | _ => []

/-- A check entry that actually produces a sample: a JSON object whose
`name` decoded as a non-empty string. -/
def wfCheckEntry (j : JVal) : Bool :=
  match j with
  | JVal.obj kvs =>
      match alookup kvs "name" with
      | some (JVal.str s) => s != ""
      | _ => false
  | _ => false

/-- The name the checks loop extracts from a check entry. -/
def checkName (j : JVal) : String :=
  match j with
  | JVal.obj kvs => jstrOr (alookup kvs "name")
  | _ => ""

/-- The pass flag the checks loop extracts from a check entry. -/
def checkOk (j : JVal) : Bool :=
  match j with
  | JVal.obj kvs => jboolOr (alookup kvs "ok")
  | _ => false

/-- The result the `run(fn)` wrapper is expected to produce from the user
function's own behaviour alone: its outcome, with exactly its own recorded
entries attached (nonempty buffers only).  Stated from the spec's
invocation-scoping contract, to be compared with `runWrapper`. -/
def expectedRes (ops : List GuestOp) (oc : Outcome) : Except String SafeRes :=
  match oc with
  | Outcome.thr m => Except.error m
  | Outcome.ret v =>
      Except.ok
        ⟨(match v with
          | JVal.obj kvs => JVal.obj kvs
          | JVal.arr l => JVal.arr l
          | _ => JVal.obj []),
          if (telOf ops).isEmpty then none else some (telOf ops),
          if (chkOf ops).isEmpty then none else some (chkOf ops)⟩

/-- C2: the second argument of `Run` is classified deterministically by key
presence alone and never yields an error: a non-map argument becomes the whole
payload; a map with at least one of the reserved keys `payload`, `env`,
`timeout`, `runtime` is an options object whose `payload` field (when present)
becomes the payload; any other map is itself the payload. -/
theorem parseRunOptions_classification :
    (∀ entry arg, ∃ o, parseRunOptionsFromArgs entry arg = Except.ok o) ∧
    (∀ entry arg, (∀ m, arg ≠ JVal.obj m) → parsedPayload entry arg = some arg) ∧
    (∀ entry m p, hasAnyReservedKey m = true → alookup m "payload" = some p →
      parsedPayload entry (JVal.obj m) = some p) ∧
    (∀ entry m, hasAnyReservedKey m = false →
      parsedPayload entry (JVal.obj m) = some (JVal.obj m)) := by
  refine ⟨?_, ?_, ?_, ?_⟩
  · intro entry arg
    cases arg <;> simp [parseRunOptionsFromArgs] <;> split <;> simp
  · intro entry arg h
    cases arg <;> simp [parsedPayload, parseRunOptionsFromArgs]
    exact absurd rfl (h _)
  · intro entry m p hres hp
    simp only [parsedPayload, parseRunOptionsFromArgs]
    rw [if_pos hres]
    simp [hp]
  · intro entry m hres
    simp only [parsedPayload, parseRunOptionsFromArgs]
    rw [if_neg (by simp [hres])]

/-- Closed witness for C2 on the spec's own example inputs:
`{payload: {a:1}, timeout: "2s"}` is options with payload `{a:1}`, and a plain
`{a:1}` is itself the payload. -/
theorem parseRunOptions_classification_witness :
    parsedPayload "lib.js"
        (JVal.obj [("payload", JVal.obj [("a", JVal.num 1)]), ("timeout", JVal.str "2s")]) =
        some (JVal.obj [("a", JVal.num 1)]) ∧
    parsedPayload "lib.js" (JVal.obj [("a", JVal.num 1)]) =
        some (JVal.obj [("a", JVal.num 1)]) := by
  constructor
  · exact parseRunOptions_classification.2.2.1 "lib.js" _ _ (by rfl) (by rfl)
  · exact parseRunOptions_classification.2.2.2 "lib.js" _ (by rfl)

theorem prefixTotal {α : Type} {l1 l2 l3 : List α} (h1 : l1 <+: l3) (h2 : l2 <+: l3) :
    l1 <+: l2 ∨ l2 <+: l1 := by
  rcases le_total l1.length l2.length with h | h
  · left
    rw [List.prefix_iff_eq_take] at h2 ⊢
    calc l1 = List.take l1.length l3 := List.prefix_iff_eq_take.mp h1
    _ = List.take (min l1.length l2.length) l3 := by rw [min_eq_left h]
    _ = List.take l1.length (List.take l2.length l3) := by rw [List.take_take]
    _ = List.take l1.length l2 := by rw [← h2]
  · right
    rw [List.prefix_iff_eq_take] at h1 ⊢
    calc l2 = List.take l2.length l3 := List.prefix_iff_eq_take.mp h2
    _ = List.take (min l2.length l1.length) l3 := by rw [min_eq_left h]
    _ = List.take l2.length (List.take l1.length l3) := by rw [List.take_take]
    _ = List.take l2.length l1 := by rw [← h1]

theorem runtimeSuffixTable_pairwise :
    ∀ p ∈ runtimeSuffixTable, ∀ q ∈ runtimeSuffixTable,
      p.2 = q.2 ∨ (p.2.data.reverse.isPrefixOf q.2.data.reverse = false ∧
        q.2.data.reverse.isPrefixOf p.2.data.reverse = false) := by decide

theorem runtimeSuffixTable_tag_of_suffix :
    ∀ p ∈ runtimeSuffixTable, ∀ q ∈ runtimeSuffixTable, p.2 = q.2 → p.1 = q.1 := by decide

theorem runtimeSuffixTable_ne_nil : ∀ p ∈ runtimeSuffixTable, p.2.data ≠ [] := by decide

/-- If the lowercased filename ends in a tag/extension suffix from the table,
detection returns that tag. -/
theorem detect_of_endsWith (filename tag suf : String)
    (hmem : (tag, suf) ∈ runtimeSuffixTable)
    (h : endsWithL (lowerString filename).data suf.data = true) :
    detectRuntimeFromFilename filename = tag := by
  have hne : filename ≠ "" := by
    intro hf
    subst hf
    have : suf.data ≠ [] := runtimeSuffixTable_ne_nil _ hmem
    simp only [endsWithL, lowerString] at h
    rw [ List.isPrefixOf_iff_prefix] at h
    rcases h with ⟨t, ht⟩
    cases hc : suf.data.reverse with
    | nil => exact this (by simpa using congrArg List.reverse hc)
    | cons c cs => rw [hc] at ht; simp at ht
  rw [detectRuntimeFromFilename, if_neg hne]
  cases hp : runtimeSuffixTable.find? (fun p => endsWithL (lowerString filename).data p.2.data) with
  | none =>
      exact absurd h (by simpa using List.find?_eq_none.mp hp (tag, suf) hmem)
  | some p =>
      have hpmem := List.mem_of_find?_eq_some hp
      have hppred := List.find?_some hp
      have h1 : p.2.data.reverse <+: (lowerString filename).data.reverse := by
        rw [← List.isPrefixOf_iff_prefix]
        simpa [endsWithL] using hppred
      have h2 : suf.data.reverse <+: (lowerString filename).data.reverse := by
        rw [← List.isPrefixOf_iff_prefix]
        simpa [endsWithL] using h
      have heq : p.2 = suf := by
        rcases runtimeSuffixTable_pairwise p hpmem (tag, suf) hmem with heq | ⟨hf1, hf2⟩
        · exact heq
        · rcases prefixTotal h1 h2 with hh | hh
          · rw [← List.isPrefixOf_iff_prefix] at hh
            simp [hf1] at hh
          · rw [← List.isPrefixOf_iff_prefix] at hh
            simp [hf2] at hh
      exact runtimeSuffixTable_tag_of_suffix p hpmem (tag, suf) hmem heq

theorem findSub_some_occurs {pat : List Char} :
    ∀ {s : List Char} {i : Nat}, findSub pat s = some i → occursAt pat s i := by
  intro s
  induction s with
  | nil =>
      intro i h
      simp only [findSub] at h
      split at h
      next hp =>
        cases h
        simpa [occursAt] using hp
      next hp => cases h
  | cons c t ih =>
      intro i h
      simp only [findSub] at h
      split at h
      next hp =>
        cases h
        simpa [occursAt] using hp
      next hp =>
        rcases Option.map_eq_some'.mp h with ⟨j, hj, rfl⟩
        have := ih hj
        simpa [occursAt] using this

theorem findSub_some_least {pat : List Char} :
    ∀ {s : List Char} {i : Nat}, findSub pat s = some i →
      ∀ j, j < i → ¬ occursAt pat s j := by
  intro s
  induction s with
  | nil =>
      intro i h j hj
      simp only [findSub] at h
      split at h
      next hp => cases h; omega
      next hp => cases h
  | cons c t ih =>
      intro i h j hj
      simp only [findSub] at h
      split at h
      next hp => cases h; omega
      next hp =>
        rcases Option.map_eq_some'.mp h with ⟨i2, hi2, rfl⟩
        cases j with
        | zero =>
            intro hocc
            exact hp (by simpa [occursAt] using hocc)
        | succ j2 =>
            have := ih hi2 j2 (by omega)
            simpa [occursAt] using this

theorem findSub_none {pat : List Char} :
    ∀ {s : List Char}, findSub pat s = none → ∀ i, ¬ occursAt pat s i := by
  intro s
  induction s with
  | nil =>
      intro h i
      simp only [findSub] at h
      split at h
      next hp => cases h
      next hp =>
        intro hocc
        exact hp (by simpa [occursAt, List.drop_nil] using hocc)
  | cons c t ih =>
      intro h i
      simp only [findSub] at h
      split at h
      next hp => cases h
      next hp =>
        rw [Option.map_eq_none'] at h
        cases i with
        | zero =>
            intro hocc
            exact hp (by simpa [occursAt] using hocc)
        | succ i2 =>
            have := ih h i2
            simpa [occursAt] using this

theorem findSub_of_least {pat s : List Char} {i : Nat} (h1 : occursAt pat s i)
    (h2 : ∀ j, j < i → ¬ occursAt pat s j) : findSub pat s = some i := by
  cases hf : findSub pat s with
  | none => exact absurd h1 (findSub_none hf i)
  | some j =>
      rcases lt_trichotomy j i with hji | hji | hji
      · exact absurd (findSub_some_occurs hf) (h2 j hji)
      · rw [hji]
      · exact absurd h1 (findSub_some_least hf i hji)

/-- The bracketed text of a decomposed output: if the start marker first
occurs right after `pre` and the end marker first occurs (within the rest)
right after `mid`, the extracted text is exactly `mid`. -/
theorem extractBetween_spec (pre mid post : List Char)
    (hpre : ∀ j, j < pre.length →
      ¬ occursAt startMarkerL (pre ++ (startMarkerL ++ (mid ++ (endMarkerL ++ post)))) j)
    (hmid : ∀ j, j < mid.length → ¬ occursAt endMarkerL (mid ++ (endMarkerL ++ post)) j) :
    extractBetween (pre ++ (startMarkerL ++ (mid ++ (endMarkerL ++ post)))) = some mid := by
  have h1 : occursAt startMarkerL
      (pre ++ (startMarkerL ++ (mid ++ (endMarkerL ++ post)))) pre.length := by
    simp only [occursAt, List.drop_left]
    rw [ List.isPrefixOf_iff_prefix]
    exact List.prefix_append _ _
  have hfs := findSub_of_least h1 hpre
  have h2 : occursAt endMarkerL (mid ++ (endMarkerL ++ post)) mid.length := by
    simp only [occursAt, List.drop_left]
    rw [ List.isPrefixOf_iff_prefix]
    exact List.prefix_append _ _
  have hfe := findSub_of_least h2 hmid
  simp only [extractBetween, hfs]
  rw [List.drop_left, List.drop_left, hfe]
  simp [List.take_left]

/-- C4 (amended): result extraction parses exactly the (whitespace-trimmed)
text between the first occurrence of the start marker and the next occurrence
of the end marker, ignoring all text outside the bracket; when no such marker
pair exists, or the bracketed text decodes as neither a JSON object nor the
JSON literal `null`, it returns an error and no result; a bracketed `null`
succeeds — as Go's `json.Unmarshal` into a map does — with a nil (here:
empty) result map and no error. -/
theorem extractResult_markers :
    (∀ pre mid post,
      (∀ j, j < pre.length →
        ¬ occursAt startMarkerL (pre ++ (startMarkerL ++ (mid ++ (endMarkerL ++ post)))) j) →
      (∀ j, j < mid.length → ¬ occursAt endMarkerL (mid ++ (endMarkerL ++ post)) j) →
      extractResultL (pre ++ (startMarkerL ++ (mid ++ (endMarkerL ++ post)))) =
        (match goUnmarshalMap (goTrimSpace mid) with
         | some m => Except.ok m
         | none => Except.error GoErr.unmarshalFailed)) ∧
    (∀ pre mid post,
      (∀ j, j < pre.length →
        ¬ occursAt startMarkerL (pre ++ (startMarkerL ++ (mid ++ (endMarkerL ++ post)))) j) →
      (∀ j, j < mid.length → ¬ occursAt endMarkerL (mid ++ (endMarkerL ++ post)) j) →
      goTrimSpace mid = "null".data →
      extractResultL (pre ++ (startMarkerL ++ (mid ++ (endMarkerL ++ post)))) =
        Except.ok []) ∧
    (∀ out, (∀ i, ¬ occursAt startMarkerL out i) →
      extractResultL out = Except.error GoErr.markersNotFound) ∧
    (∀ out i, occursAt startMarkerL out i →
      (∀ j, j < i → ¬ occursAt startMarkerL out j) →
      (∀ j, ¬ occursAt endMarkerL ((out.drop i).drop startMarkerL.length) j) →
      extractResultL out = Except.error GoErr.markersNotFound) := by
  have main : ∀ pre mid post : List Char,
      (∀ j, j < pre.length →
        ¬ occursAt startMarkerL (pre ++ (startMarkerL ++ (mid ++ (endMarkerL ++ post)))) j) →
      (∀ j, j < mid.length → ¬ occursAt endMarkerL (mid ++ (endMarkerL ++ post)) j) →
      extractResultL (pre ++ (startMarkerL ++ (mid ++ (endMarkerL ++ post)))) =
        (match goUnmarshalMap (goTrimSpace mid) with
         | some m => Except.ok m
         | none => Except.error GoErr.unmarshalFailed) := by
    intro pre mid post hpre hmid
    rw [extractResultL, extractBetween_spec pre mid post hpre hmid]
    cases hg : goUnmarshalMap (goTrimSpace mid) with
    | none => simp [hg]
    | some m => simp [hg]
  refine ⟨main, ?_, ?_, ?_⟩
  · intro pre mid post hpre hmid hnull
    rw [main pre mid post hpre hmid, hnull]
    rfl
  · intro out hno
    have hfs : findSub startMarkerL out = none := by
      cases hf : findSub startMarkerL out with
      | none => rfl
      | some i => exact absurd (findSub_some_occurs hf) (hno i)
    rw [extractResultL, extractBetween, hfs]
  · intro out i hocc hleast hnoend
    have hfs := findSub_of_least hocc hleast
    have hfe : findSub endMarkerL ((out.drop i).drop startMarkerL.length) = none := by
      cases hf : findSub endMarkerL ((out.drop i).drop startMarkerL.length) with
      | none => rfl
      | some j => exact absurd (findSub_some_occurs hf) (hnoend j)
    rw [extractResultL, extractBetween, hfs]
    simp only [hfe]

/-- Counterexample to C4 as stated: output bracketing the JSON literal
`null` — not a JSON object — makes extraction succeed with a nil result map
instead of returning an error and no result, because `json.Unmarshal` of
`null` into a map is not an error in Go. -/
theorem extractResult_markers_cex :
    extractResultL "__RESULT_START__ null __RESULT_END__".data = Except.ok [] := by
  rfl

/-- Closed witness for C4 (amended): diagnostic noise around the bracket is
ignored and the trimmed bracketed object decodes. -/
theorem extractResult_markers_witness :
    extractResultL
        ("log ".data ++ (startMarkerL ++ (" \x7b\x7d ".data ++ (endMarkerL ++ "\n".data)))) =
      Except.ok [] := by
  have h := extractResult_markers.1 "log ".data " \x7b\x7d ".data "\n".data
    (by decide) (by decide)
  exact h.trans (by rfl)

theorem runtimeSuffixTable_tags :
    ∀ p ∈ runtimeSuffixTable, p.1 = "node" ∨ p.1 = "deno" ∨ p.1 = "bun" := by decide

/-- C3: runtime resolution: an explicit (non-empty) runtime value wins and is
validated against the supported set, with an error naming that set for any
other value; otherwise a lowercased filename ending in `.node`/`.deno`/`.bun`
immediately before a `js`/`ts`/`mjs`/`cjs` extension selects that runtime;
otherwise the default is `node` and resolution never fails.  An invalid
explicit runtime value makes `Run` fail before the spawn point. -/
theorem runtime_resolution :
    (∀ rt fname, rt ≠ "" →
      resolveRuntime rt fname =
        (if rt = "node" ∨ rt = "deno" ∨ rt = "bun" then Except.ok rt
         else Except.error (GoErr.unsupportedRuntime rt ["node", "deno", "bun"]))) ∧
    (∀ fname tag suf, (tag, suf) ∈ runtimeSuffixTable →
      endsWithL (lowerString fname).data suf.data = true →
      resolveRuntime "" fname = Except.ok tag) ∧
    (∀ fname, detectRuntimeFromFilename fname = "" →
      resolveRuntime "" fname = Except.ok "node") ∧
    (resolveRuntime "" "x.node.js" = Except.ok "node" ∧
      resolveRuntime "" "x.deno.ts" = Except.ok "deno" ∧
      resolveRuntime "" "x.bun.js" = Except.ok "bun" ∧
      resolveRuntime "" "x.js" = Except.ok "node") ∧
    (∀ flow m out st rt, alookup m "runtime" = some (JVal.str rt) →
      ¬ (rt = "node" ∨ rt = "deno" ∨ rt = "bun") → rt ≠ "" →
      runModel flow (JVal.obj m) out st =
        (Except.error (GoErr.unsupportedRuntime rt ["node", "deno", "bun"]), false)) := by
  have hexp : ∀ rt fname, rt ≠ "" →
      resolveRuntime rt fname =
        (if rt = "node" ∨ rt = "deno" ∨ rt = "bun" then Except.ok rt
         else Except.error (GoErr.unsupportedRuntime rt ["node", "deno", "bun"])) := by
    intro rt fname h
    simp only [resolveRuntime, if_neg h]
  refine ⟨hexp, ?_, ?_, ⟨rfl, rfl, rfl, rfl⟩, ?_⟩
  · intro fname tag suf hmem hends
    have hdet : detectRuntimeFromFilename fname = tag := detect_of_endsWith fname tag suf hmem hends
    have htag := runtimeSuffixTable_tags (tag, suf) hmem
    simp only [resolveRuntime, if_pos rfl, hdet]
    rcases htag with h | h | h <;> subst h <;> rfl
  · intro fname hdet
    simp only [resolveRuntime, if_pos rfl, hdet]
    rfl
  · intro flow m out st rt hrt hbad hne
    have hres : hasAnyReservedKey m = true := by
      simp [hasAnyReservedKey, hrt]
    rw [runModel, runPrepare]
    simp only [parseRunOptionsFromArgs, if_pos hres, hrt]
    rw [hexp _ _ hne, if_neg hbad]

/-- Closed witness for C3: an explicit unsupported runtime fails before the
spawn point naming the supported set; uppercase `.DENO.TS` still detects. -/
theorem runtime_resolution_witness :
    runModel "x.js" (JVal.obj [("runtime", JVal.str "python")]) "" ⟨[], []⟩ =
      (Except.error (GoErr.unsupportedRuntime "python" ["node", "deno", "bun"]), false) ∧
    resolveRuntime "" "MyFlow.DENO.TS" = Except.ok "deno" := by
  constructor
  · exact runtime_resolution.2.2.2.2 "x.js" _ "" ⟨[], []⟩ "python" rfl (by decide) (by decide)
  · exact runtime_resolution.2.1 "MyFlow.DENO.TS" "deno" ".deno.ts" (by decide) (by decide)

/-- C6: when the interpreted options carry a non-empty timeout string that is
not valid duration syntax (and the earlier caller checks passed, so no other
caller error preempts it), `Run` fails with an error naming the invalid
timeout value, returns no result, and never reaches the spawn point. -/
theorem invalid_timeout_no_spawn :
    ∀ flow arg out st opts, parseRunOptionsFromArgs flow arg = Except.ok opts →
      opts.timeout ≠ "" → goParseDuration opts.timeout = none →
      (∃ rt, resolveRuntime opts.runtime
        (if opts.entry = "" then flow else opts.entry) = Except.ok rt) →
      runModel flow arg out st =
        (Except.error (GoErr.invalidTimeout opts.timeout), false) := by
  intro flow arg out st opts hp ht hd hres
  rcases hres with ⟨rt, hres⟩
  simp only [runModel, runPrepare, hp, hres, if_neg ht, hd]

/-- Closed witness for C6: `{timeout: "abc"}` fails naming `abc` with the
spawn point unreached. -/
theorem invalid_timeout_no_spawn_witness :
    runModel "x.js" (JVal.obj [("timeout", JVal.str "abc")]) "" ⟨[], []⟩ =
      (Except.error (GoErr.invalidTimeout "abc"), false) := by
  exact invalid_timeout_no_spawn "x.js" (JVal.obj [("timeout", JVal.str "abc")]) "" ⟨[], []⟩
    ⟨"", "x.js", JVal.obj [("timeout", JVal.str "abc")], [], "abc"⟩
    rfl (by decide) rfl ⟨"node", rfl⟩

theorem alookup_eraseKey_self (m : List (String × JVal)) (k : String) :
    alookup (eraseKey m k) k = none := by
  induction m with
  | nil => rfl
  | cons kv t ih =>
      rcases kv with ⟨k2, v⟩
      by_cases h : k2 = k
      · simp only [eraseKey, List.filter_cons] at ih ⊢
        rw [if_neg (show ¬ (((k2, v).1 != k) = true) by simp [h])]
        exact ih
      · simp only [eraseKey, List.filter_cons] at ih ⊢
        rw [if_pos (show ((k2, v).1 != k) = true by simpa [bne_iff_ne] using h)]
        simpa [alookup, h] using ih

theorem alookup_eraseKey_other (m : List (String × JVal)) (k k2 : String) (h : k2 ≠ k) :
    alookup (eraseKey m k) k2 = alookup m k2 := by
  induction m with
  | nil => rfl
  | cons kv t ih =>
      rcases kv with ⟨k3, v⟩
      by_cases h3 : k3 = k
      · have h4 : ¬ (k3 = k2) := fun hh => h (hh ▸ h3)
        simp only [eraseKey, List.filter_cons] at ih ⊢
        rw [if_neg (show ¬ (((k3, v).1 != k) = true) by simp [h3])]
        rw [ih]
        simp [alookup, h4]
      · simp only [eraseKey, List.filter_cons] at ih ⊢
        rw [if_pos (show ((k3, v).1 != k) = true by simpa [bne_iff_ne] using h3)]
        by_cases h4 : k3 = k2
        · simp [alookup, h4]
        · simpa [alookup, h4] using ih

theorem metricsBlock_lookup_other (st : MState) (result : List (String × JVal)) (k : String)
    (h1 : k ≠ "__k6_metrics__") :
    alookup (metricsBlock st result).2.2 k = alookup result k := by
  rw [metricsBlock]
  split
  · exact alookup_eraseKey_other result "__k6_metrics__" k h1
  · rfl

theorem checksBlock_lookup_other (st : MState) (result : List (String × JVal)) (k : String)
    (h1 : k ≠ "__k6_checks__") :
    alookup (checksBlock st result).2.2 k = alookup result k := by
  rw [checksBlock]
  split
  · exact alookup_eraseKey_other result "__k6_checks__" k h1
  · rfl

theorem metricsBlock_lookup_arr (st : MState) (result : List (String × JVal))
    (l : List JVal) (h : alookup result "__k6_metrics__" = some (JVal.arr l)) :
    alookup (metricsBlock st result).2.2 "__k6_metrics__" = none := by
  rw [metricsBlock, h]
  exact alookup_eraseKey_self result "__k6_metrics__"

theorem checksBlock_lookup_arr (st : MState) (result : List (String × JVal))
    (l : List JVal) (h : alookup result "__k6_checks__" = some (JVal.arr l)) :
    alookup (checksBlock st result).2.2 "__k6_checks__" = none := by
  rw [checksBlock, h]
  exact alookup_eraseKey_self result "__k6_checks__"

theorem metricsBlock_lookup_nonarr (st : MState) (result : List (String × JVal))
    (h : ∀ l, alookup result "__k6_metrics__" ≠ some (JVal.arr l)) :
    alookup (metricsBlock st result).2.2 "__k6_metrics__" =
      alookup result "__k6_metrics__" := by
  rw [metricsBlock]
  split
  next l heq => exact absurd heq (h l)
  next => rfl

theorem checksBlock_lookup_nonarr (st : MState) (result : List (String × JVal))
    (h : ∀ l, alookup result "__k6_checks__" ≠ some (JVal.arr l)) :
    alookup (checksBlock st result).2.2 "__k6_checks__" =
      alookup result "__k6_checks__" := by
  rw [checksBlock]
  split
  next l heq => exact absurd heq (h l)
  next => rfl

/-- C1 (amended): on every successful `Run`, the returned map is the decoded
wire result with a reserved key removed exactly when its decoded value was an
array; a reserved key holding a non-array value is returned unchanged, and
every other key is returned unchanged. -/
theorem mergeResult_strips_reserved :
    (∀ flow arg out st r b, runModel flow arg out st = (Except.ok r, b) →
      ∃ decoded, extractResult out = Except.ok decoded ∧ mergeResult st decoded = r) ∧
    (∀ st result k, k ≠ "__k6_metrics__" → k ≠ "__k6_checks__" →
      alookup (mergeResult st result).2.2 k = alookup result k) ∧
    (∀ st result l, alookup result "__k6_metrics__" = some (JVal.arr l) →
      alookup (mergeResult st result).2.2 "__k6_metrics__" = none) ∧
    (∀ st result l, alookup result "__k6_checks__" = some (JVal.arr l) →
      alookup (mergeResult st result).2.2 "__k6_checks__" = none) ∧
    (∀ st result, (∀ l, alookup result "__k6_metrics__" ≠ some (JVal.arr l)) →
      alookup (mergeResult st result).2.2 "__k6_metrics__" =
        alookup result "__k6_metrics__") ∧
    (∀ st result, (∀ l, alookup result "__k6_checks__" ≠ some (JVal.arr l)) →
      alookup (mergeResult st result).2.2 "__k6_checks__" =
        alookup result "__k6_checks__") := by
  have hmerge : ∀ st result, (mergeResult st result).2.2 =
      (checksBlock (metricsBlock st result).1 (metricsBlock st result).2.2).2.2 := by
    intro st result
    rfl
  refine ⟨?_, ?_, ?_, ?_, ?_, ?_⟩
  · intro flow arg out st r b h
    rw [runModel] at h
    cases hp : runPrepare flow arg with
    | error e => rw [hp] at h; cases h
    | ok p =>
        rw [hp] at h
        cases he : extractResult out with
        | error e => rw [he] at h; cases h
        | ok decoded =>
            rw [he] at h
            refine ⟨decoded, rfl, ?_⟩
            have := congrArg Prod.fst h
            simpa using this
  · intro st result k h1 h2
    rw [hmerge]
    rw [checksBlock_lookup_other _ _ _ h2]
    exact metricsBlock_lookup_other _ _ _ h1
  · intro st result l h
    rw [hmerge]
    rw [checksBlock_lookup_other _ _ _ (by decide)]
    exact metricsBlock_lookup_arr _ _ l h
  · intro st result l h
    rw [hmerge]
    have hmid : alookup (metricsBlock st result).2.2 "__k6_checks__" =
        some (JVal.arr l) := by
      rw [metricsBlock_lookup_other _ _ _ (by decide)]
      exact h
    exact checksBlock_lookup_arr _ _ l hmid
  · intro st result h
    rw [hmerge]
    rw [checksBlock_lookup_other _ _ _ (by decide)]
    exact metricsBlock_lookup_nonarr _ _ h
  · intro st result h
    rw [hmerge]
    have hmid : alookup (metricsBlock st result).2.2 "__k6_checks__" =
        alookup result "__k6_checks__" := by
      exact metricsBlock_lookup_other _ _ _ (by decide)
    rw [checksBlock_lookup_nonarr _ _ (fun l => by rw [hmid]; exact h l)]
    exact hmid

/-- Counterexample to C1 as stated: a reserved key whose decoded value is not
array-shaped survives to the caller (here `__k6_metrics__` bound to a
string), contradicting "contains neither reserved key whatever values the
decoded wire result held under them". -/
theorem mergeResult_strips_reserved_cex :
    alookup (mergeResult ⟨[], []⟩
        [("__k6_metrics__", JVal.str "x"), ("a", JVal.num 1)]).2.2 "__k6_metrics__" =
      some (JVal.str "x") := by
  rfl

/-- Closed witness for C1 (amended): array-shaped reserved keys are stripped
and the user key survives unchanged. -/
theorem mergeResult_strips_reserved_witness :
    alookup (mergeResult ⟨[], []⟩
        [("__k6_metrics__", JVal.arr []), ("a", JVal.num 1),
          ("__k6_checks__", JVal.arr [])]).2.2 "__k6_metrics__" = none ∧
    alookup (mergeResult ⟨[], []⟩
        [("__k6_metrics__", JVal.arr []), ("a", JVal.num 1),
          ("__k6_checks__", JVal.arr [])]).2.2 "__k6_checks__" = none ∧
    alookup (mergeResult ⟨[], []⟩
        [("__k6_metrics__", JVal.arr []), ("a", JVal.num 1),
          ("__k6_checks__", JVal.arr [])]).2.2 "a" = some (JVal.num 1) := by
  refine ⟨mergeResult_strips_reserved.2.2.1 _ _ [] rfl,
    mergeResult_strips_reserved.2.2.2.1 _ _ [] rfl,
    (mergeResult_strips_reserved.2.1 _ _ "a" (by decide) (by decide)).trans (by rfl)⟩

theorem alookup_append {α : Type} (l1 l2 : List (String × α)) (n : String) :
    alookup (l1 ++ l2) n =
      (match alookup l1 n with
       | some v => some v
       | none => alookup l2 n) := by
  induction l1 with
  | nil => rfl
  | cons kv t ih =>
      rcases kv with ⟨k2, v⟩
      by_cases h : k2 = n
      · simp [alookup, h]
      · simpa [alookup, h] using ih

theorem alookup_eq_none_iff {α : Type} (l : List (String × α)) (n : String) :
    alookup l n = none ↔ n ∉ l.map Prod.fst := by
  induction l with
  | nil => simp [alookup]
  | cons kv t ih =>
      rcases kv with ⟨k2, v⟩
      by_cases h : k2 = n
      · simp [alookup, h]
      · simp [alookup, h, ih]
        intro _ hh
        exact h hh.symm

theorem processMetricEntry_acc (st : MState) (acc : List MSample) (j : JVal) :
    processMetricEntry (st, acc) j =
      ((processMetricEntry (st, []) j).1, acc ++ (processMetricEntry (st, []) j).2) := by
  cases j with
  | obj kvs =>
      simp only [processMetricEntry]
      split
      · simp
      · split
        · simp
        · simp
  | undef => simp [processMetricEntry]
  | null => simp [processMetricEntry]
  | bool b => simp [processMetricEntry]
  | num q => simp [processMetricEntry]
  | str s => simp [processMetricEntry]
  | arr l => simp [processMetricEntry]

theorem processMetricsList_acc (l : List JVal) :
    ∀ (st : MState) (acc : List MSample),
      l.foldl processMetricEntry (st, acc) =
        ((processMetricsList st l).1, acc ++ (processMetricsList st l).2) := by
  induction l with
  | nil =>
      intro st acc
      simp [processMetricsList]
  | cons j t ih =>
      intro st acc
      rcases hq : processMetricEntry (st, []) j with ⟨S, D⟩
      have h1 : processMetricEntry (st, acc) j = (S, acc ++ D) := by
        rw [processMetricEntry_acc st acc j, hq]
      simp only [processMetricsList, List.foldl_cons] at ih ⊢
      rw [h1, hq, ih S (acc ++ D), ih S D]
      simp [List.append_assoc]

theorem wf_metricSkip_false (kvs : List (String × JVal)) (q : Rat)
    (hv : alookup kvs "value" = some (JVal.num q)) :
    metricSkip (alookup kvs "value") (extractMetricValue (alookup kvs "value")) = false := by
  rw [hv]
  simp only [metricSkip, extractMetricValue, isNilJ, isZeroFloatJ]
  by_cases hq : q = 0
  · simp [hq]
  · simp [hq]

theorem processMetricEntry_wf (st : MState) (acc : List MSample) (j : JVal)
    (h : wfMetricEntry j = true) :
    processMetricEntry (st, acc) j =
      (match alookup st.customMetrics (entryName j) with
       | some k => (st, acc ++ [⟨entryName j, k, entryValue j, entryTags j⟩])
       | none =>
           (⟨st.customMetrics ++ [(entryName j, entryKind j)],
             st.registrations ++ [(entryName j, entryKind j)]⟩,
             acc ++ [⟨entryName j, entryKind j, entryValue j, entryTags j⟩])) := by
  cases j with
  | obj kvs =>
      simp only [wfMetricEntry] at h
      rcases hv : alookup kvs "value" with _ | v
      · rw [hv] at h; cases h
      · rw [hv] at h
        cases v with
        | num q =>
            have hskip := wf_metricSkip_false kvs q hv
            simp only [processMetricEntry, entryName, entryKind, entryValue, entryTags]
            rw [if_neg (by simp [hskip])]
        | undef => cases h
        | null => cases h
        | bool b => cases h
        | str s => cases h
        | arr l2 => cases h
        | obj kvs2 => cases h
  | undef => cases h
  | null => cases h
  | bool b => cases h
  | num q => cases h
  | str s => cases h
  | arr l2 => cases h

theorem processMetricEntry_mono {st : MState} {acc : List MSample} {j : JVal}
    {n : String} {k : MKind} (h : alookup st.customMetrics n = some k) :
    alookup (processMetricEntry (st, acc) j).1.customMetrics n = some k := by
  cases j with
  | obj kvs =>
      simp only [processMetricEntry]
      split
      · exact h
      · split
        · exact h
        · simp only [alookup_append, h]
  | undef => exact h
  | null => exact h
  | bool b => exact h
  | num q => exact h
  | str s => exact h
  | arr l2 => exact h

theorem processMetricsList_mono (l : List JVal) :
    ∀ {st : MState} {n : String} {k : MKind},
      alookup st.customMetrics n = some k →
      alookup (processMetricsList st l).1.customMetrics n = some k := by
  induction l with
  | nil => intro st n k h; exact h
  | cons j t ih =>
      intro st n k h
      rcases hq : processMetricEntry (st, []) j with ⟨S, D⟩
      have hS : alookup S.customMetrics n = some k := by
        have := @processMetricEntry_mono st [] j n k h
        rw [hq] at this
        exact this
      simp only [processMetricsList, List.foldl_cons, hq]
      rw [processMetricsList_acc t S D]
      exact ih hS

theorem alookup_append_none_parts {α : Type} {l1 l2 : List (String × α)} {n : String}
    (h : alookup (l1 ++ l2) n = none) :
    alookup l1 n = none ∧ alookup l2 n = none := by
  rw [alookup_append] at h
  cases h1 : alookup l1 n with
  | none => rw [h1] at h; exact ⟨rfl, h⟩
  | some v => rw [h1] at h; cases h

theorem processMetricEntry_state_shape (st : MState) (j : JVal) :
    ((processMetricEntry (st, []) j).1 = st) ∨
    (∃ nm kd, alookup st.customMetrics nm = none ∧
      (processMetricEntry (st, []) j).1.customMetrics = st.customMetrics ++ [(nm, kd)] ∧
      (processMetricEntry (st, []) j).1.registrations = st.registrations ++ [(nm, kd)]) := by
  cases j with
  | obj kvs =>
      simp only [processMetricEntry]
      split
      · left; rfl
      · split
        next k hk => left; rfl
        next hk => right; exact ⟨_, _, hk, rfl, rfl⟩
  | undef => left; rfl
  | null => left; rfl
  | bool b => left; rfl
  | num q => left; rfl
  | str s => left; rfl
  | arr l2 => left; rfl

theorem processMetricsList_regs (l : List JVal) :
    ∀ st : MState, ∃ regs : List (String × MKind),
      (processMetricsList st l).1.customMetrics = st.customMetrics ++ regs ∧
      (processMetricsList st l).1.registrations = st.registrations ++ regs ∧
      (∀ n, n ∈ regs.map Prod.fst → alookup st.customMetrics n = none) ∧
      (regs.map Prod.fst).Nodup := by
  induction l with
  | nil =>
      intro st
      exact ⟨[], by simp [processMetricsList], by simp [processMetricsList], by simp, by simp⟩
  | cons j t ih =>
      intro st
      rcases hq : processMetricEntry (st, []) j with ⟨S, D⟩
      have hshape := processMetricEntry_state_shape st j
      rw [hq] at hshape
      dsimp only at hshape
      have hgoal : processMetricsList st (j :: t) =
          ((processMetricsList S t).1, D ++ (processMetricsList S t).2) := by
        simp only [processMetricsList, List.foldl_cons, hq]
        rw [processMetricsList_acc]
        rfl
      rcases ih S with ⟨regs1, hc1, hr1, habs1, hnd1⟩
      rcases hshape with hS | ⟨nm, kd, hnone, hcm, hreg⟩
      · refine ⟨regs1, ?_, ?_, ?_, hnd1⟩
        · rw [hgoal]; rw [hc1, hS]
        · rw [hgoal]; rw [hr1, hS]
        · intro n hn
          have := habs1 n hn
          rwa [hS] at this
      · refine ⟨(nm, kd) :: regs1, ?_, ?_, ?_, ?_⟩
        · rw [hgoal]
          rw [hc1, hcm, List.append_assoc]
          rfl
        · rw [hgoal]
          rw [hr1, hreg, List.append_assoc]
          rfl
        · intro n hn
          rcases List.mem_cons.mp hn with hn1 | hn1
          · simp only [List.map_cons] at hn1
            rw [show n = nm from hn1]
            exact hnone
          · have := habs1 n hn1
            rw [hcm] at this
            exact (alookup_append_none_parts this).1
        · simp only [List.map_cons, List.nodup_cons]
          refine ⟨?_, hnd1⟩
          intro hmem
          have := habs1 nm hmem
          rw [hcm, alookup_append] at this
          cases h1 : alookup st.customMetrics nm with
          | some v => rw [h1] at this; cases this
          | none =>
              rw [h1] at this
              simp [alookup] at this

theorem processMetricsList_step (st : MState) (j : JVal) (t : List JVal) :
    processMetricsList st (j :: t) =
      ((processMetricsList (processMetricEntry (st, []) j).1 t).1,
        (processMetricEntry (st, []) j).2 ++
          (processMetricsList (processMetricEntry (st, []) j).1 t).2) := by
  rcases hq : processMetricEntry (st, []) j with ⟨S, D⟩
  simp only [processMetricsList, List.foldl_cons, hq]
  rw [processMetricsList_acc]
  rfl

theorem processMetricsList_kind (l : List JVal) :
    ∀ (st : MState) (n : String), (∀ j ∈ l, wfMetricEntry j = true) →
      alookup st.customMetrics n = none →
      alookup (processMetricsList st l).1.customMetrics n =
        (l.find? (fun j => entryName j == n)).map entryKind := by
  induction l with
  | nil =>
      intro st n hwf h
      simpa [processMetricsList] using h
  | cons j t ih =>
      intro st n hwf h
      have hwfj : wfMetricEntry j = true := hwf j (List.mem_cons_self j t)
      have hwft : ∀ x ∈ t, wfMetricEntry x = true :=
        fun x hx => hwf x (List.mem_cons_of_mem j hx)
      have hstep := processMetricEntry_wf st [] j hwfj
      rw [processMetricsList_step]
      by_cases hn : entryName j = n
      · rw [hn] at hstep
        rw [h] at hstep
        rw [hstep]
        have hbind : alookup (processMetricEntry (st, []) j).1.customMetrics n =
            some (entryKind j) := by
          rw [hstep]
          dsimp only
          rw [alookup_append, h]
          simp [alookup]
        have hfin := @processMetricsList_mono t (processMetricEntry (st, []) j).1 n
          (entryKind j) hbind
        rw [hstep] at hfin
        rw [hfin]
        rw [List.find?_cons_of_pos _ (by simp [hn])]
        rfl
      · have hSn : alookup (processMetricEntry (st, []) j).1.customMetrics n = none := by
          rw [hstep]
          cases halo : alookup st.customMetrics (entryName j) with
          | some k => exact h
          | none =>
              dsimp only
              rw [alookup_append, h]
              simp [alookup, hn]
        rw [List.find?_cons_of_neg _ (by simp [hn])]
        exact ih (processMetricEntry (st, []) j).1 n hwft hSn

theorem processMetricsList_samples (l : List JVal) :
    ∀ st : MState, (∀ j ∈ l, wfMetricEntry j = true) →
      (processMetricsList st l).2.map MSample.metricName = l.map entryName ∧
      (processMetricsList st l).2.map MSample.value = l.map entryValue ∧
      ∀ s ∈ (processMetricsList st l).2,
        alookup (processMetricsList st l).1.customMetrics s.metricName =
          some s.metricKind := by
  induction l with
  | nil =>
      intro st hwf
      refine ⟨rfl, rfl, ?_⟩
      intro s hs
      simp [processMetricsList] at hs
  | cons j t ih =>
      intro st hwf
      have hwfj : wfMetricEntry j = true := hwf j (List.mem_cons_self j t)
      have hwft : ∀ x ∈ t, wfMetricEntry x = true :=
        fun x hx => hwf x (List.mem_cons_of_mem j hx)
      have hstep := processMetricEntry_wf st [] j hwfj
      rw [processMetricsList_step]
      rcases ih (processMetricEntry (st, []) j).1 hwft with ⟨ihn, ihv, ihk⟩
      have hD : ∃ k0, (processMetricEntry (st, []) j).2 =
          [⟨entryName j, k0, entryValue j, entryTags j⟩] ∧
          alookup (processMetricEntry (st, []) j).1.customMetrics (entryName j) =
            some k0 := by
        cases halo : alookup st.customMetrics (entryName j) with
        | some k =>
            rw [halo] at hstep
            refine ⟨k, ?_, ?_⟩
            · rw [hstep]
              simp
            · rw [hstep]
              dsimp only
              exact halo
        | none =>
            rw [halo] at hstep
            refine ⟨entryKind j, ?_, ?_⟩
            · rw [hstep]
              simp
            · rw [hstep]
              dsimp only
              rw [alookup_append, halo]
              simp [alookup]
      rcases hD with ⟨k0, hD, hbind⟩
      rw [hD]
      refine ⟨?_, ?_, ?_⟩
      · simp only [List.singleton_append, List.map_cons, List.map, List.append_eq,
          List.nil_append]
        rw [ihn]
      · simp only [List.singleton_append, List.map_cons, List.map, List.append_eq,
          List.nil_append]
        rw [ihv]
      · intro s hs
        rcases List.mem_cons.mp (by simpa using hs) with hs1 | hs1
        · subst hs1
          dsimp only
          exact processMetricsList_mono t hbind
        · exact ihk s hs1

/-- C5: metric kind is first-write-wins.  (1) A name is never registered
twice: processing appends to the registry only fresh names, pairwise
distinct, whatever the entries look like.  (2) For well-formed telemetry
entries, the kind finally bound to a fresh name is the kind carried by the
first entry bearing that name (unknown kind strings defaulting to counter).
(3) Every well-formed entry pushes exactly one sample, in arrival order, and
the metric each sample is bound to is the (unique, sticky) registry binding
of that entry's name. -/
theorem metrics_first_write_wins :
    (∀ st l, ∃ regs : List (String × MKind),
      (processMetricsList st l).1.customMetrics = st.customMetrics ++ regs ∧
      (processMetricsList st l).1.registrations = st.registrations ++ regs ∧
      (∀ n, n ∈ regs.map Prod.fst → alookup st.customMetrics n = none) ∧
      (regs.map Prod.fst).Nodup) ∧
    (∀ st l n, (∀ j ∈ l, wfMetricEntry j = true) → alookup st.customMetrics n = none →
      alookup (processMetricsList st l).1.customMetrics n =
        (l.find? (fun j => entryName j == n)).map entryKind) ∧
    (∀ st l, (∀ j ∈ l, wfMetricEntry j = true) →
      (processMetricsList st l).2.map MSample.metricName = l.map entryName ∧
      (processMetricsList st l).2.map MSample.value = l.map entryValue ∧
      ∀ s ∈ (processMetricsList st l).2,
        alookup (processMetricsList st l).1.customMetrics s.metricName =
          some s.metricKind) :=
  ⟨fun st l => processMetricsList_regs l st,
    fun st l n hw h => processMetricsList_kind l st n hw h,
    fun st l hw => processMetricsList_samples l st hw⟩

/-- Closed witness for C5 on the spec's example: a `counter` entry named `m`
followed by a `gauge` entry named `m` leaves `m` bound to a counter. -/
theorem metrics_first_write_wins_witness :
    (∀ j ∈ [JVal.obj [("name", JVal.str "m"), ("type", JVal.str "counter"),
        ("value", JVal.num 1)],
      JVal.obj [("name", JVal.str "m"), ("type", JVal.str "gauge"),
        ("value", JVal.num 2)]], wfMetricEntry j = true) ∧
    alookup (processMetricsList ⟨[], []⟩
      [JVal.obj [("name", JVal.str "m"), ("type", JVal.str "counter"),
        ("value", JVal.num 1)],
      JVal.obj [("name", JVal.str "m"), ("type", JVal.str "gauge"),
        ("value", JVal.num 2)]]).1.customMetrics "m" = some MKind.counter := by
  refine ⟨by decide, ?_⟩
  exact (metrics_first_write_wins.2.1 ⟨[], []⟩
    [JVal.obj [("name", JVal.str "m"), ("type", JVal.str "counter"),
        ("value", JVal.num 1)],
      JVal.obj [("name", JVal.str "m"), ("type", JVal.str "gauge"),
        ("value", JVal.num 2)]] "m" (by decide) rfl).trans (by rfl)

theorem processCheckEntry_eq (k : MKind) (acc : List MSample) (j : JVal) :
    processCheckEntry k acc j =
      acc ++ (if wfCheckEntry j then
        [⟨"checks", k, if checkOk j then 1 else 0, [("check", checkName j)]⟩]
      else []) := by
  cases j with
  | obj kvs =>
      rcases hv : alookup kvs "name" with _ | v
      · simp [processCheckEntry, wfCheckEntry, jstrOr, hv]
      · cases v with
        | str s =>
            by_cases hs : s = ""
            · simp [processCheckEntry, wfCheckEntry, jstrOr, hv, hs]
            · simp [processCheckEntry, wfCheckEntry, checkOk, checkName, jstrOr, hv, hs]
        | undef => simp [processCheckEntry, wfCheckEntry, jstrOr, hv]
        | null => simp [processCheckEntry, wfCheckEntry, jstrOr, hv]
        | bool b => simp [processCheckEntry, wfCheckEntry, jstrOr, hv]
        | num q => simp [processCheckEntry, wfCheckEntry, jstrOr, hv]
        | arr l2 => simp [processCheckEntry, wfCheckEntry, jstrOr, hv]
        | obj kvs2 => simp [processCheckEntry, wfCheckEntry, jstrOr, hv]
  | undef => simp [processCheckEntry, wfCheckEntry]
  | null => simp [processCheckEntry, wfCheckEntry]
  | bool b => simp [processCheckEntry, wfCheckEntry]
  | num q => simp [processCheckEntry, wfCheckEntry]
  | str s => simp [processCheckEntry, wfCheckEntry]
  | arr l2 => simp [processCheckEntry, wfCheckEntry]

theorem checksFold_eq (k : MKind) (l : List JVal) :
    ∀ acc : List MSample, l.foldl (processCheckEntry k) acc =
      acc ++ (l.filter wfCheckEntry).map
        (fun j => ⟨"checks", k, if checkOk j then 1 else 0, [("check", checkName j)]⟩) := by
  induction l with
  | nil =>
      intro acc
      simp
  | cons j t ih =>
      intro acc
      rw [List.foldl_cons, processCheckEntry_eq, ih]
      cases hw : wfCheckEntry j with
      | true => simp [List.filter_cons, hw, List.append_assoc]
      | false => simp [List.filter_cons, hw]

/-- C7 (amended): for any checks array, mixed or not, each entry that is an
object bearing a non-empty name produces exactly one sample, in arrival
order, on the single metric bound to the name `checks` (registered as a rate
metric when that name is not already bound; bound by an earlier telemetry
entry otherwise), tagged with the check's name, with value 1.0 when the check
passed and 0.0 otherwise — while entries that are not objects, or whose name
is missing or empty, produce no sample. -/
theorem checks_one_sample_each :
    ∀ st l,
      (processChecksList st l).2 =
        (l.filter wfCheckEntry).map
          (fun j => ⟨"checks", (alookup st.customMetrics "checks").getD MKind.rate,
            if checkOk j then 1 else 0, [("check", checkName j)]⟩) ∧
      alookup (processChecksList st l).1.customMetrics "checks" =
        some ((alookup st.customMetrics "checks").getD MKind.rate) := by
  intro st l
  cases hc : alookup st.customMetrics "checks" with
  | some k =>
      constructor
      · simp only [processChecksList, hc]
        simpa using checksFold_eq k l []
      · simp only [processChecksList, hc]
        simpa using hc
  | none =>
      constructor
      · simp only [processChecksList, hc]
        simpa using checksFold_eq MKind.rate l []
      · simp only [processChecksList, hc]
        rw [alookup_append, hc]
        simp [alookup]

/-- Counterexample to C7 as stated: (1) a check entry whose name is the empty
string produces no sample at all (the loop skips it), so not every check
entry produces exactly one sample; (2) when an earlier telemetry entry
already bound the name `checks` (here to a gauge), the check sample is pushed
on that non-rate metric, so it is not pushed on a rate metric. -/
theorem checks_one_sample_each_cex :
    (processChecksList ⟨[], []⟩
      [JVal.obj [("name", JVal.str ""), ("ok", JVal.bool true)]]).2 = [] ∧
    (processChecksList ⟨[("checks", MKind.gauge)], []⟩
      [JVal.obj [("name", JVal.str "a"), ("ok", JVal.bool true)]]).2 =
      [⟨"checks", MKind.gauge, 1, [("check", "a")]⟩] := by
  exact ⟨rfl, rfl⟩

/-- Closed witness for C7 (amended) on a mixed array around the spec's
example flow: a non-object entry and an empty-name entry are dropped while
checks a→true, b→false, c→true yield three rate samples with values
1, 0, 1 in order. -/
theorem checks_one_sample_each_witness :
    (processChecksList ⟨[], []⟩
      [JVal.obj [("name", JVal.str "a"), ("ok", JVal.bool true)],
        JVal.num 7,
        JVal.obj [("name", JVal.str ""), ("ok", JVal.bool true)],
        JVal.obj [("name", JVal.str "b"), ("ok", JVal.bool false)],
        JVal.obj [("name", JVal.str "c"), ("ok", JVal.bool true)]]).2 =
      [⟨"checks", MKind.rate, 1, [("check", "a")]⟩,
        ⟨"checks", MKind.rate, 0, [("check", "b")]⟩,
        ⟨"checks", MKind.rate, 1, [("check", "c")]⟩] := by
  exact ((checks_one_sample_each ⟨[], []⟩
    [JVal.obj [("name", JVal.str "a"), ("ok", JVal.bool true)],
      JVal.num 7,
      JVal.obj [("name", JVal.str ""), ("ok", JVal.bool true)],
      JVal.obj [("name", JVal.str "b"), ("ok", JVal.bool false)],
      JVal.obj [("name", JVal.str "c"), ("ok", JVal.bool true)]]).1).trans (by rfl)

theorem interpOps_run (ops : List GuestOp) :
    ∀ m c, interpOps ⟨some m, some c⟩ ops =
      Except.ok ⟨some (m ++ telOf ops), some (c ++ chkOf ops)⟩ := by
  induction ops with
  | nil =>
      intro m c
      simp [interpOps, telOf, chkOf]
  | cons op t ih =>
      intro m c
      cases op with
      | tel e =>
          simp only [interpOps, interpOp]
          rw [ih]
          simp [telOf, chkOf, List.filterMap_cons, List.append_assoc]
      | chk n cond =>
          simp only [interpOps, interpOp]
          rw [ih]
          simp [telOf, chkOf, List.filterMap_cons, List.append_assoc]

/-- C8: the wrapper produced by `run(fn)` installs fresh collectors, and the
`finally` restores the previously installed ones on both the return and the
throw path; the buffers attached to an invocation's result are exactly the
entries that invocation's own operations recorded, independent of the ambient
state — so sequential invocations never leak entries into each other. -/
theorem runWrapper_scoped :
    (∀ ops oc a, runWrapper ops oc a = (a, expectedRes ops oc)) ∧
    (∀ ops1 oc1 ops2 oc2 a,
      (runWrapper ops2 oc2 (runWrapper ops1 oc1 a).1).2 = expectedRes ops2 oc2 ∧
      (runWrapper ops2 oc2 (runWrapper ops1 oc1 a).1).1 = a ∧
      (runWrapper ops1 oc1 a).2 = expectedRes ops1 oc1) := by
  have h1 : ∀ ops oc a, runWrapper ops oc a = (a, expectedRes ops oc) := by
    intro ops oc a
    simp only [runWrapper, interpOps_run ops [] []]
    cases oc with
    | thr m => rfl
    | ret v =>
        simp only [expectedRes]
        cases v <;> rfl
  refine ⟨h1, ?_⟩
  intro ops1 oc1 ops2 oc2 a
  rw [h1 ops1 oc1 a]
  exact ⟨by rw [h1], by rw [h1], rfl⟩

/-- C9 (amended): the runner's EMIT_RESULT prints exactly one delimited
result (start marker line, one JSON text line, end marker line) and exits 0;
a falsy flow value (including returning nothing, i.e. `undefined`) is
replaced by the empty object, which the host-side extractor then decodes as
the empty result; a truthy value is stringified as-is. -/
theorem jsRunnerEmit_spec :
    ∀ v, (jsRunnerEmit v).1 =
        ["__RESULT_START__",
          jsonStringify (if jsTruthy v then v else JVal.obj []),
          "__RESULT_END__"] ∧
      (jsRunnerEmit v).2 = 0 ∧
      (jsTruthy v = false →
        (jsRunnerEmit v).1 = ["__RESULT_START__", "\x7b\x7d", "__RESULT_END__"] ∧
        extractResult (joinLines (jsRunnerEmit v).1) = Except.ok []) := by
  intro v
  refine ⟨rfl, rfl, ?_⟩
  intro h
  have hl : (jsRunnerEmit v).1 = ["__RESULT_START__", "\x7b\x7d", "__RESULT_END__"] := by
    simp [jsRunnerEmit, h]
    rfl
  refine ⟨hl, ?_⟩
  rw [hl]
  rfl

/-- Counterexample to C9 as stated: a truthy non-object return value (here
the number 5) is NOT substituted by an empty object — the runner emits `5`. -/
theorem jsRunnerEmit_cex :
    (jsRunnerEmit (JVal.num 5)).1 = ["__RESULT_START__", "5", "__RESULT_END__"] ∧
    ("5" : String) ≠ "\x7b\x7d" := by
  exact ⟨rfl, by decide⟩

/-- Closed witness for C9 (amended) at the falsy value `null`. -/
theorem jsRunnerEmit_spec_witness :
    jsTruthy JVal.null = false ∧
    (jsRunnerEmit JVal.null).1 = ["__RESULT_START__", "\x7b\x7d", "__RESULT_END__"] ∧
    (jsRunnerEmit JVal.null).2 = 0 ∧
    extractResult (joinLines (jsRunnerEmit JVal.null).1) = Except.ok [] := by
  have h := jsRunnerEmit_spec JVal.null
  exact ⟨by decide, (h.2.2 (by decide)).1, h.2.1, (h.2.2 (by decide)).2⟩

/-- C10: every entry the helpers' `Rate` handle records has value exactly 0
or 1: `Rate.add(value, tags)` records 1 for truthy and 0 for falsy `value`,
never the numeric value itself (so `rate("r").add(5)` records 1). -/
theorem rateAdd_zero_or_one :
    (∀ c name v tags, rateAdd c name v tags =
      c ++ [⟨"rate", name, if jsTruthy v then 1 else 0, tags⟩]) ∧
    (∀ c name v tags e, e ∈ rateAdd c name v tags → e ∈ c ∨ e.value = 0 ∨ e.value = 1) ∧
    (∀ c name q tags, q ≠ 0 →
      rateAdd c name (JVal.num q) tags = c ++ [⟨"rate", name, 1, tags⟩]) ∧
    rateAdd [] "r" (JVal.num 5) [] = [⟨"rate", "r", 1, []⟩] := by
  refine ⟨fun c name v tags => rfl, ?_, ?_, by rfl⟩
  · intro c name v tags e he
    rcases List.mem_append.mp he with h | h
    · exact Or.inl h
    · rcases List.mem_singleton.mp h with rfl
      by_cases ht : jsTruthy v
      · right; right; simp [ht]
      · right; left; simp [ht]
  · intro c name q tags hq
    simp only [rateAdd, recordRate, jsTruthy]
    rw [if_pos (by simpa using hq)]

/-- Closed witness for C10: a rate handle fed the number 5 records value 1. -/
theorem rateAdd_zero_or_one_witness :
    (5 : Rat) ≠ 0 ∧
    rateAdd [] "r" (JVal.num 5) [] = [⟨"rate", "r", 1, []⟩] := by
  exact ⟨by norm_num, rateAdd_zero_or_one.2.2.1 [] "r" 5 [] (by norm_num)⟩
